import Mathlib

/-!
Verification of the `prepare-commit-msg` hook
`src/prepare-commit-msg/add-jira-to-commit-body.py`.

Modelling choices (shallow embedding):
* Python strings are `List Char`; the Python substring test `t in s` is
  `t <:+: s` (`List.IsInfix`), and Python's `s[:k]` / `s[k:]` are
  `List.take k s` / `List.drop k s`.
* `re.search("^#", content, re.MULTILINE)` returns the first offset `k`
  such that `content[k] = '#'` and `k` is the start of a line
  (`k = 0` or `content[k-1] = '\n'`); this is `findCommentStart`.
* `re.search(re.escape(label) + "-[0-9]+", branch)` scans start offsets
  left to right and at the first offset where the pattern matches returns
  the label, a dash, and the maximal (greedy) run of digits; this is
  `reSearchTicket` built from `matchTicketAt`.
* The `git rev-parse --abbrev-ref HEAD` subprocess is an external
  collaborator: its outcome (start failure, or exit code with stdout and
  stderr text) is a `BranchOutcome` parameter of `get_branch` and `main`.
* The commit-message file is modelled by its content, passed to `main`,
  which returns the final content together with a written-flag, the
  stderr log, and the exit code.  The only Python exception reachable in
  `main` itself is the `IndexError` from `argv[1]` when fewer than two
  argv entries exist; an uncaught exception makes the interpreter exit
  with status 1 (`RunResult.crashed`, `exitCodeOf`).
-/

namespace GitHooks

/-- `TICKET_LABELS = ("FOO", "BAR")` from the script. -/
def TICKET_LABELS : List (List Char) := ["FOO".toList, "BAR".toList]

/-- `TICKET_PREFIX = "Ticket: "` from the script. -/
def TICKET_PREFIX : List Char := "Ticket: ".toList

/-- `SUPPORTED_SOURCES = (None, "message", "template", "commit")`. -/
def SUPPORTED_SOURCES : List (Option (List Char)) :=
  [none, some "message".toList, some "template".toList, some "commit".toList]

/-- Offset `k` of `content` is a match of `^#` in multi-line mode:
the character there is `#` and it sits at the start of a line. -/
def isCommentStartPos (s : List Char) (k : Nat) : Prop :=
  s[k]? = some '#' ∧ (k = 0 ∨ s[k - 1]? = some '\n')

instance (s : List Char) (k : Nat) : Decidable (isCommentStartPos s k) := by
  unfold isCommentStartPos; infer_instance

/-- `re.search("^#", commit_content, flags=re.MULTILINE)`, returning the
start offset of the match (`span(0)[0]` in the script): the least offset
that is a line start holding `#`. -/
def findCommentStart (s : List Char) : Option Nat :=
  (List.range s.length).find? (fun k => decide (isCommentStartPos s k))

/-- `_add_ticket_details` from the script: insert the ticket line before
the comment block when one exists, else append it at the end. -/
def add_ticket_details (commit_content ticket_string : List Char)
    (commit_source : Option (List Char)) : List Char :=
  match findCommentStart commit_content with
  | some k =>
    let commit_text := commit_content.take k
    let commit_comments := commit_content.drop k
    let ts := '\n' :: ticket_string ++ ['\n'] ++
      (if commit_source = none then ['\n'] else [])
    commit_text ++ ts ++ commit_comments
  | none => commit_content ++ '\n' :: ticket_string ++ ['\n']

/-- `_add_ticket_to_commit` from the script: no-op when the ticket line is
already a substring of the content or the source is not one of
`None`/`"message"`/`"commit"`; otherwise insert. -/
def add_ticket_to_commit (ticket : List Char) (commit_source : Option (List Char))
    (commit_content : List Char) : Option (List Char) :=
  let ticket_string := TICKET_PREFIX ++ ticket
  if ticket_string <:+: commit_content then none
  else if commit_source = none ∨ commit_source = some "message".toList ∨
      commit_source = some "commit".toList then
    some (add_ticket_details commit_content ticket_string commit_source)
  else none

/-- One pass of the Commit Body Editor as a total transform on content:
the updated content when the editor changes it, the original otherwise. -/
def applyEditor (ticket : List Char) (src : Option (List Char))
    (content : List Char) : List Char :=
  match add_ticket_to_commit ticket src content with
  | some out => out
  | none => content

/-- Attempt of `re.search(re.escape(label) + "-[0-9]+", branch)` at one
fixed start position: the label literally, a dash, then a non-empty
greedy run of digits.  Returns `group(0)` of the match. -/
def matchTicketAt (label s : List Char) : Option (List Char) :=
  if (label ++ ['-']) <+: s then
    let digits := (s.drop (label.length + 1)).takeWhile Char.isDigit
    if digits = [] then none else some (label ++ '-' :: digits)
  else none

/-- `re.search(re.escape(label) + "-[0-9]+", branch)`: try successive
start positions left to right, return the first match. -/
def reSearchTicket (label : List Char) : List Char → Option (List Char)
  | [] => none
  | c :: rest =>
    match matchTicketAt label (c :: rest) with
    | some t => some t
    | none => reSearchTicket label rest

/-- `_get_ticket_from_branch` from the script: scan the labels in order,
return the first label's leftmost match. -/
def get_ticket_from_branch (branch : List Char) : List (List Char) → Option (List Char)
  | [] => none
  | label :: rest =>
    match reSearchTicket label branch with
    | some t => some t
    | none => get_ticket_from_branch branch rest

/-- There is a character at offset `n` of `s` and it is a digit. -/
def digitAt (s : List Char) (n : Nat) : Prop :=
  ∃ c, s[n]? = some c ∧ c.isDigit = true

instance (s : List Char) (n : Nat) : Decidable (digitAt s n) :=
  decidable_of_iff ((s[n]?.map Char.isDigit).getD false = true)
    (by cases h : s[n]? <;> simp [digitAt, h])

/-- The regex `<label>-[0-9]+` matches in `s` at start offset `i`. -/
def labelMatchesAt (label s : List Char) (i : Nat) : Prop :=
  (label ++ ['-']) <+: s.drop i ∧ digitAt s (i + label.length + 1)

instance (label s : List Char) (i : Nat) : Decidable (labelMatchesAt label s i) := by
  unfold labelMatchesAt; infer_instance

/-- The text of the match of `<label>-[0-9]+` starting at offset `i` of
`s`: the label, a dash, and the maximal digit run after the dash. -/
def leftmostTicket (label s : List Char) (i : Nat) : List Char :=
  label ++ '-' :: (s.drop (i + label.length + 1)).takeWhile Char.isDigit

/-- Outcome of the external `git rev-parse --abbrev-ref HEAD` call:
either the process could not be started (`OSError`) or it exited with a
return code, stdout text and stderr text. -/
inductive BranchOutcome where
  | startFailure (err : List Char)
  | exited (returncode : Int) (stdout stderr : List Char)
deriving DecidableEq

/-- The collaborator failed: start failure or non-zero exit. -/
def branchFailed : BranchOutcome → Prop
  | .startFailure _ => True
  | .exited rc _ _ => rc ≠ 0

instance : (o : BranchOutcome) → Decidable (branchFailed o)
  | .startFailure _ => isTrue trivial
  | .exited rc _ _ => inferInstanceAs (Decidable (rc ≠ 0))

/-- The command string `' '.join(cmd)` used in the script's messages. -/
def CMD_STRING : List Char := "git rev-parse --abbrev-ref HEAD".toList

/-- The stderr message printed when the process cannot be started
(the script's f-string contains a stray `f`, reproduced here). -/
def startFailMessage (err : List Char) : List Char :=
  "Failed to run `f".toList ++ CMD_STRING ++ "`: ".toList ++ err

/-- The stderr message printed when the process exits non-zero. -/
def exitFailMessage (stdout stderr : List Char) : List Char :=
  "`".toList ++ CMD_STRING ++ "` failed: ".toList ++ stdout ++ ", ".toList ++ stderr

/-- Result of `_get_branch`: the optional branch text (stdout verbatim,
trailing newline included) and the lines printed to stderr. -/
structure BranchResult where
  branch : Option (List Char)
  errLog : List (List Char)
deriving DecidableEq

/-- `_get_branch` from the script. -/
def get_branch (o : BranchOutcome) : BranchResult :=
  match o with
  | .startFailure err => ⟨none, [startFailMessage err]⟩
  | .exited rc stdout stderr =>
    if rc ≠ 0 then ⟨none, [exitFailMessage stdout stderr]⟩
    else ⟨some stdout, []⟩

/-- Lines 47-51 of the script: `commit_source = argv[2] if len(argv) == 4
else None`. -/
def parseCommitSource (argv : List (List Char)) : Option (List Char) :=
  if argv.length = 4 then argv[2]? else none

/-- Observable result of a completed run of `main`: final content of the
commit-message file, whether it was rewritten, the stderr log, and the
returned exit code. -/
structure MainResult where
  fileContent : List Char
  wrote : Bool
  errLog : List (List Char)
  exitCode : Nat
deriving DecidableEq

/-- A run of the script: either an uncaught Python exception (only the
`IndexError` from `argv[1]` is reachable given the file content exists)
or a completed `main`. -/
inductive RunResult where
  | crashed
  | finished (r : MainResult)
deriving DecidableEq

/-- `main` from the script, over the argv vector, the content of the
commit-message file named by `argv[1]`, and the branch-call outcome. -/
def main (argv : List (List Char)) (fileContent : List Char)
    (o : BranchOutcome) : RunResult :=
  match argv[1]? with
  | none => .crashed
  | some _ =>
    let commit_source := parseCommitSource argv
    if commit_source ∈ SUPPORTED_SOURCES then
      let br := get_branch o
      match br.branch with
      | none => .finished ⟨fileContent, false, br.errLog, 0⟩
      | some branch =>
        match get_ticket_from_branch branch TICKET_LABELS with
        | none => .finished ⟨fileContent, false, br.errLog, 0⟩
        | some ticket =>
          match add_ticket_to_commit ticket commit_source fileContent with
          | none => .finished ⟨fileContent, false, br.errLog, 0⟩
          | some out => .finished ⟨out, true, br.errLog, 0⟩
    else .finished ⟨fileContent, false, [], 0⟩

/-- Process exit status of a run: the value returned by `main`, or 1 when
an uncaught exception aborts the interpreter. -/
def exitCodeOf : RunResult → Nat
  | .crashed => 1
  | .finished r => r.exitCode

/-! ## Helper lemmas -/

/-- The inserted ticket line occurs as a substring of any output of
`add_ticket_details`. -/
lemma ticket_line_in_details (content ts : List Char) (src : Option (List Char)) :
    ts <:+: add_ticket_details content ts src := by
  unfold add_ticket_details
  cases h : findCommentStart content with
  | none =>
    exact ⟨content ++ ['\n'], ['\n'], by simp⟩
  | some k =>
    exact ⟨content.take k ++ ['\n'],
      ['\n'] ++ (if src = none then ['\n'] else []) ++ content.drop k, by simp⟩

/-- No offset at or beyond the length of `s` is a comment start. -/
lemma not_isCommentStartPos_of_length_le {s : List Char} {k : Nat}
    (h : s.length ≤ k) : ¬ isCommentStartPos s k := by
  intro hk
  have := (List.getElem?_eq_some.mp hk.1).1
  omega

/-- `findCommentStart` returns exactly the least comment-start offset. -/
lemma findCommentStart_eq_some_iff {s : List Char} {k : Nat} :
    findCommentStart s = some k ↔
      isCommentStartPos s k ∧ ∀ j < k, ¬ isCommentStartPos s j := by
  unfold findCommentStart
  rw [List.find?_eq_some_iff_getElem]
  constructor
  · rintro ⟨hp, i, hi, hik, hmin⟩
    rw [List.getElem_range] at hik
    subst hik
    refine ⟨of_decide_eq_true hp, fun j hj hcj => ?_⟩
    have hjlen : j < s.length := by
      have := (List.getElem?_eq_some.mp hcj.1).1
      omega
    have := hmin j hj
    rw [List.getElem_range] at this
    simp [hcj] at this
  · rintro ⟨hk, hmin⟩
    have hklen : k < s.length := (List.getElem?_eq_some.mp hk.1).1
    refine ⟨decide_eq_true hk, k, by simpa using hklen, by simp, fun j hj => ?_⟩
    rw [List.getElem_range]
    simpa using hmin j hj

/-- `findCommentStart` returns `none` exactly when no offset is a comment
start. -/
lemma findCommentStart_eq_none_iff {s : List Char} :
    findCommentStart s = none ↔ ∀ k, ¬ isCommentStartPos s k := by
  unfold findCommentStart
  rw [List.find?_eq_none]
  constructor
  · intro h k hk
    have hklen : k < s.length := (List.getElem?_eq_some.mp hk.1).1
    have := h k (by simpa using hklen)
    simp [hk] at this
  · intro h x _
    simp [h x]

/-- A digit stands at offset `n` of `s` exactly when the greedy digit run
taken from offset `n` is non-empty. -/
lemma digitAt_iff {s : List Char} {n : Nat} :
    digitAt s n ↔ (s.drop n).takeWhile Char.isDigit ≠ [] := by
  have hh : s[n]? = (s.drop n).head? := by
    rw [List.head?_eq_getElem?, List.getElem?_drop, Nat.add_zero]
  cases hd : s.drop n with
  | nil => simp [digitAt, hh, hd]
  | cons c rest =>
    rw [hd] at hh
    simp only [digitAt, hh, List.head?_cons, List.takeWhile_cons]
    cases hdig : c.isDigit <;> simp [hdig]

/-- A successful position-0 regex attempt is exactly a position-0 match,
returning the label, dash, and greedy digit run. -/
lemma matchTicketAt_eq_some {label s : List Char} (h : labelMatchesAt label s 0) :
    matchTicketAt label s = some (leftmostTicket label s 0) := by
  obtain ⟨hp, hd⟩ := h
  rw [List.drop_zero] at hp
  rw [Nat.zero_add] at hd
  have hne : (s.drop (label.length + 1)).takeWhile Char.isDigit ≠ [] := digitAt_iff.mp hd
  unfold matchTicketAt
  rw [if_pos hp, if_neg hne]
  unfold leftmostTicket
  rw [Nat.zero_add]

/-- Converse of `matchTicketAt_eq_some`. -/
lemma matchTicketAt_eq_some_iff {label s t : List Char} :
    matchTicketAt label s = some t ↔
      labelMatchesAt label s 0 ∧ t = leftmostTicket label s 0 := by
  constructor
  · intro h
    simp only [matchTicketAt] at h
    split_ifs at h with hp hdig
    refine ⟨⟨by rw [List.drop_zero]; exact hp,
      by rw [Nat.zero_add]; exact digitAt_iff.mpr hdig⟩, ?_⟩
    unfold leftmostTicket
    rw [Nat.zero_add]
    exact (Option.some.inj h).symm
  · rintro ⟨hm, rfl⟩
    exact matchTicketAt_eq_some hm

/-- Shifting a match position by one across a cons cell. -/
lemma labelMatchesAt_cons_succ {label : List Char} {c : Char} {rest : List Char}
    {i : Nat} :
    labelMatchesAt label (c :: rest) (i + 1) ↔ labelMatchesAt label rest i := by
  unfold labelMatchesAt digitAt
  rw [List.drop_succ_cons,
    show i + 1 + label.length + 1 = (i + label.length + 1) + 1 from by omega,
    List.getElem?_cons_succ]

/-- Shifting the match text by one position across a cons cell. -/
lemma leftmostTicket_cons_succ {label : List Char} {c : Char} {rest : List Char}
    {i : Nat} :
    leftmostTicket label (c :: rest) (i + 1) = leftmostTicket label rest i := by
  unfold leftmostTicket
  rw [show i + 1 + label.length + 1 = (i + label.length + 1) + 1 from by omega,
    List.drop_succ_cons]

/-- No offset of `s` matches exactly when the scan returns `none`. -/
lemma reSearchTicket_eq_none_iff {label s : List Char} :
    reSearchTicket label s = none ↔ ∀ i, ¬ labelMatchesAt label s i := by
  induction s with
  | nil =>
    simp only [reSearchTicket]
    constructor
    · intro _ i hm
      have hp := hm.1
      rw [List.drop_nil] at hp
      have := List.prefix_nil.mp hp
      simp at this
    · intro _
      trivial
  | cons c rest ih =>
    simp only [reSearchTicket]
    cases hm : matchTicketAt label (c :: rest) with
    | some t =>
      simp only [reduceCtorEq, false_iff, not_forall, not_not]
      obtain ⟨hma, -⟩ := matchTicketAt_eq_some_iff.mp hm
      exact ⟨0, hma⟩
    | none =>
      rw [ih]
      have hnot0 : ¬ labelMatchesAt label (c :: rest) 0 := fun hma => by
        simp [matchTicketAt_eq_some hma] at hm
      constructor
      · intro h i
        cases i with
        | zero => exact hnot0
        | succ i =>
          rw [labelMatchesAt_cons_succ]
          exact h i
      · intro h i
        have := h (i + 1)
        rwa [labelMatchesAt_cons_succ] at this

/-- The scan returns exactly the match at the least matching offset. -/
lemma reSearchTicket_eq_some_iff {label s t : List Char} :
    reSearchTicket label s = some t ↔
      ∃ i, labelMatchesAt label s i ∧ (∀ j < i, ¬ labelMatchesAt label s j) ∧
        t = leftmostTicket label s i := by
  induction s with
  | nil =>
    simp only [reSearchTicket]
    constructor
    · intro h
      exact absurd h (by simp)
    · rintro ⟨i, hm, -, -⟩
      have hp := hm.1
      rw [List.drop_nil] at hp
      have := List.prefix_nil.mp hp
      simp at this
  | cons c rest ih =>
    simp only [reSearchTicket]
    cases hm : matchTicketAt label (c :: rest) with
    | some t0 =>
      obtain ⟨hm0, ht0⟩ := matchTicketAt_eq_some_iff.mp hm
      constructor
      · intro h
        obtain rfl : t0 = t := Option.some.inj h
        exact ⟨0, hm0, fun j hj => absurd hj (Nat.not_lt_zero j), ht0⟩
      · rintro ⟨i, hi, hmin, rfl⟩
        cases i with
        | zero => rw [← ht0]
        | succ i => exact absurd hm0 (hmin 0 (Nat.succ_pos i))
    | none =>
      have hnot0 : ¬ labelMatchesAt label (c :: rest) 0 := fun hma => by
        simp [matchTicketAt_eq_some hma] at hm
      rw [ih]
      constructor
      · rintro ⟨i, hi, hmin, rfl⟩
        refine ⟨i + 1, labelMatchesAt_cons_succ.mpr hi, ?_,
          leftmostTicket_cons_succ.symm⟩
        intro j hj
        cases j with
        | zero => exact hnot0
        | succ j =>
          rw [labelMatchesAt_cons_succ]
          exact hmin j (by omega)
      · rintro ⟨i, hi, hmin, rfl⟩
        cases i with
        | zero => exact absurd hi hnot0
        | succ i =>
          refine ⟨i, labelMatchesAt_cons_succ.mp hi, ?_, leftmostTicket_cons_succ⟩
          intro j hj
          have := hmin (j + 1) (by omega)
          rwa [labelMatchesAt_cons_succ] at this

/-- The label scan returns `none` exactly when no label matches anywhere. -/
lemma get_ticket_from_branch_eq_none_iff {branch : List Char}
    {labels : List (List Char)} :
    get_ticket_from_branch branch labels = none ↔
      ∀ l ∈ labels, ∀ i, ¬ labelMatchesAt l branch i := by
  induction labels with
  | nil => simp [get_ticket_from_branch]
  | cons label rest ih =>
    simp only [get_ticket_from_branch]
    cases hr : reSearchTicket label branch with
    | some t =>
      simp only [reduceCtorEq, false_iff, not_forall]
      obtain ⟨i, hi, -, -⟩ := reSearchTicket_eq_some_iff.mp hr
      exact ⟨label, by simp, i, fun h => h hi⟩
    | none =>
      rw [ih]
      have hnone := reSearchTicket_eq_none_iff.mp hr
      constructor
      · intro h l hl i
        rcases List.mem_cons.mp hl with rfl | hl'
        · exact hnone i
        · exact h l hl' i
      · intro h l hl i
        exact h l (List.mem_cons_of_mem _ hl) i

/-- Labels with no match anywhere are skipped by the label scan. -/
lemma get_ticket_skip_unmatched {branch : List Char} {first rest : List (List Char)}
    (h : ∀ l ∈ first, ∀ i, ¬ labelMatchesAt l branch i) :
    get_ticket_from_branch branch (first ++ rest) =
      get_ticket_from_branch branch rest := by
  induction first with
  | nil => rfl
  | cons l pr ih =>
    simp only [List.cons_append, get_ticket_from_branch]
    have hl : reSearchTicket l branch = none :=
      reSearchTicket_eq_none_iff.mpr (h l (by simp))
    simp only [hl]
    exact ih (fun l' hl' i => h l' (List.mem_cons_of_mem _ hl') i)

/-! ## Claim theorems -/

/-- C2: the Ticket Resolver returns the leftmost `<LABEL>-<digits>` match
of the first label (in configured order) having any match — labels before
it matching nowhere in the branch name — and returns `none` when no label
matches anywhere. -/
theorem ticket_resolver_first_label_leftmost (branch : List Char)
    (labels : List (List Char)) :
    (∀ (first : List (List Char)) (label : List Char) (post : List (List Char))
        (i : Nat),
      labels = first ++ label :: post →
      (∀ l ∈ first, ∀ j < branch.length, ¬ labelMatchesAt l branch j) →
      labelMatchesAt label branch i →
      (∀ j < i, ¬ labelMatchesAt label branch j) →
      get_ticket_from_branch branch labels = some (leftmostTicket label branch i)) ∧
    ((∀ l ∈ labels, ∀ j < branch.length, ¬ labelMatchesAt l branch j) →
      get_ticket_from_branch branch labels = none) := by
  have hext : ∀ l : List Char, (∀ j < branch.length, ¬ labelMatchesAt l branch j) →
      ∀ j, ¬ labelMatchesAt l branch j := by
    intro l hb j
    by_cases hj : j < branch.length
    · exact hb j hj
    · intro hm
      have hp := hm.1
      rw [List.drop_eq_nil_of_le (by omega)] at hp
      have := List.prefix_nil.mp hp
      simp at this
  constructor
  · rintro first label post i rfl hfirst hi hmin
    rw [get_ticket_skip_unmatched (fun l hl j => hext l (hfirst l hl) j)]
    have hr : reSearchTicket label branch = some (leftmostTicket label branch i) :=
      reSearchTicket_eq_some_iff.mpr ⟨i, hi, hmin, rfl⟩
    simp only [get_ticket_from_branch, hr]
  · intro h
    exact get_ticket_from_branch_eq_none_iff.mpr (fun l hl i => hext l (h l hl) i)

/-- Witness for C2: in branch `FOO/BAR-12` the label `FOO` occurs but
never followed by a dash and digits, so the `BAR` match at offset 4 is
returned. -/
theorem ticket_resolver_first_label_leftmost_witness :
    get_ticket_from_branch "FOO/BAR-12".toList TICKET_LABELS =
      some "BAR-12".toList := by
  have h := (ticket_resolver_first_label_leftmost "FOO/BAR-12".toList TICKET_LABELS).1
    ["FOO".toList] "BAR".toList [] 4 (by decide) (by decide) (by decide) (by decide)
  exact h.trans (by decide)

/-- C3: the Commit Body Editor returns no change for the sources
`"merge"`, `"squash"` and `"template"` regardless of ticket and content,
and proceeds to insertion for an absent source, `"message"` or
`"commit"` when the target line is not already present. -/
theorem editor_source_eligibility (ticket content : List Char) (src : Option (List Char)) :
    ((src = some "merge".toList ∨ src = some "squash".toList ∨
        src = some "template".toList) →
      add_ticket_to_commit ticket src content = none) ∧
    ((src = none ∨ src = some "message".toList ∨ src = some "commit".toList) →
      ¬ (TICKET_PREFIX ++ ticket) <:+: content →
      add_ticket_to_commit ticket src content =
        some (add_ticket_details content (TICKET_PREFIX ++ ticket) src)) := by
  constructor
  · intro hsrc
    simp only [add_ticket_to_commit]
    by_cases hin : (TICKET_PREFIX ++ ticket) <:+: content
    · rw [if_pos hin]
    · rw [if_neg hin, if_neg]
      rcases hsrc with rfl | rfl | rfl <;> decide
  · intro hsrc hin
    simp only [add_ticket_to_commit]
    rw [if_neg hin, if_pos hsrc]

/-- Witness for C3: a merge source is a no-op, a message source inserts. -/
theorem editor_source_eligibility_witness :
    add_ticket_to_commit "FOO-1".toList (some "merge".toList) "abc\n".toList = none ∧
    add_ticket_to_commit "FOO-1".toList (some "message".toList) "abc\n".toList =
      some (add_ticket_details "abc\n".toList (TICKET_PREFIX ++ "FOO-1".toList)
        (some "message".toList)) :=
  ⟨(editor_source_eligibility "FOO-1".toList "abc\n".toList (some "merge".toList)).1
      (Or.inl rfl),
   (editor_source_eligibility "FOO-1".toList "abc\n".toList (some "message".toList)).2
      (Or.inr (Or.inl rfl)) (by decide)⟩

/-- C4: the Commit Body Editor is a no-op when the target line is already
contained in the content, and applying it twice equals applying it once. -/
theorem editor_idempotent (ticket content : List Char) (src : Option (List Char)) :
    ((TICKET_PREFIX ++ ticket) <:+: content →
      add_ticket_to_commit ticket src content = none) ∧
    applyEditor ticket src (applyEditor ticket src content) =
      applyEditor ticket src content := by
  have hpresent : ∀ c : List Char, (TICKET_PREFIX ++ ticket) <:+: c →
      add_ticket_to_commit ticket src c = none := by
    intro c hc
    simp only [add_ticket_to_commit]
    rw [if_pos hc]
  refine ⟨hpresent content, ?_⟩
  by_cases hin : (TICKET_PREFIX ++ ticket) <:+: content
  · simp [applyEditor, hpresent content hin]
  · by_cases hel : src = none ∨ src = some "message".toList ∨
        src = some "commit".toList
    · have h1 : add_ticket_to_commit ticket src content =
          some (add_ticket_details content (TICKET_PREFIX ++ ticket) src) := by
        simp only [add_ticket_to_commit]
        rw [if_neg hin, if_pos hel]
      have h2 := hpresent _ (ticket_line_in_details content (TICKET_PREFIX ++ ticket) src)
      simp [applyEditor, h1, h2]
    · have h1 : add_ticket_to_commit ticket src content = none := by
        simp only [add_ticket_to_commit]
        rw [if_neg hin, if_neg hel]
      simp [applyEditor, h1]

/-- Witness for C4: no change on content already holding the line, and a
concrete double application equal to the single one. -/
theorem editor_idempotent_witness :
    add_ticket_to_commit "FOO-1".toList none "Ticket: FOO-1\n".toList = none ∧
    applyEditor "FOO-1".toList none (applyEditor "FOO-1".toList none "Add\n".toList) =
      applyEditor "FOO-1".toList none "Add\n".toList :=
  ⟨(editor_idempotent "FOO-1".toList "Ticket: FOO-1\n".toList none).1 (by decide),
   (editor_idempotent "FOO-1".toList "Add\n".toList none).2⟩

/-- C10: the already-present test is plain substring containment, so any
embedded occurrence of the target text — mid-line, or as a proper prefix
of a longer occurrence such as `Ticket: FOO-12` against ticket `FOO-1` —
makes the editor return no change for every source. -/
theorem editor_skips_embedded_ticket_occurrence :
    (∀ (ticket before after : List Char) (src : Option (List Char)),
      add_ticket_to_commit ticket src (before ++ (TICKET_PREFIX ++ ticket) ++ after) =
        none) ∧
    add_ticket_to_commit "FOO-1".toList (some "message".toList)
      "see Ticket: FOO-12 here\n".toList = none ∧
    add_ticket_to_commit "FOO-1".toList none "Ticket: FOO-12\n".toList = none := by
  refine ⟨fun ticket before after src => ?_, by decide, by decide⟩
  simp only [add_ticket_to_commit]
  rw [if_pos ⟨before, after, rfl⟩]

/-- C1: when the content has a first `#`-line at offset `k` and the
source is eligible (and the target line is not already present), the
editor returns `head ++ "\n" ++ target ++ "\n"` plus one extra `"\n"`
exactly for an absent source, followed by `tail`, where
`head = content[0:k]` and `tail = content[k:]`; head and tail reassemble
the original content verbatim. -/
theorem editor_inserts_before_comment_block (content ticket : List Char)
    (src : Option (List Char)) (k : Nat)
    (hk : isCommentStartPos content k)
    (hmin : ∀ j < k, ¬ isCommentStartPos content j)
    (hsrc : src = none ∨ src = some "message".toList ∨ src = some "commit".toList)
    (habsent : ¬ (TICKET_PREFIX ++ ticket) <:+: content) :
    add_ticket_to_commit ticket src content =
      some (content.take k ++
        ('\n' :: (TICKET_PREFIX ++ ticket) ++ ['\n'] ++
          (if src = none then ['\n'] else [])) ++
        content.drop k) ∧
    content.take k ++ content.drop k = content := by
  have hfind : findCommentStart content = some k :=
    findCommentStart_eq_some_iff.mpr ⟨hk, hmin⟩
  refine ⟨?_, List.take_append_drop k content⟩
  simp only [add_ticket_to_commit]
  rw [if_neg habsent, if_pos hsrc]
  simp only [add_ticket_details, hfind]

/-- Witness for C1: the spec scenario with the `#`-line at offset 21 and
an absent source inserting the blank-line-separated ticket block. -/
theorem editor_inserts_before_comment_block_witness :
    add_ticket_to_commit "FOO-1234".toList none
        "Add the new feature!\n# Please enter...\n".toList =
      some "Add the new feature!\n\nTicket: FOO-1234\n\n# Please enter...\n".toList :=
  ((editor_inserts_before_comment_block
      "Add the new feature!\n# Please enter...\n".toList "FOO-1234".toList none 21
      (by decide) (by decide) (Or.inl rfl) (by decide)).1).trans (by decide)

/-- C5: when no line of the content starts with `#` (a mid-line `#` does
not count) and the source is eligible (target line not already present),
the editor appends `"\n" ++ target ++ "\n"` at the end of the content. -/
theorem editor_appends_when_no_comment_block (content ticket : List Char)
    (src : Option (List Char))
    (hno : ∀ k < content.length, ¬ isCommentStartPos content k)
    (hsrc : src = none ∨ src = some "message".toList ∨ src = some "commit".toList)
    (habsent : ¬ (TICKET_PREFIX ++ ticket) <:+: content) :
    add_ticket_to_commit ticket src content =
      some (content ++ '\n' :: (TICKET_PREFIX ++ ticket) ++ ['\n']) := by
  have hall : ∀ k, ¬ isCommentStartPos content k := by
    intro k
    by_cases hk : k < content.length
    · exact hno k hk
    · exact not_isCommentStartPos_of_length_le (by omega)
  have hfind : findCommentStart content = none := findCommentStart_eq_none_iff.mpr hall
  simp only [add_ticket_to_commit]
  rw [if_neg habsent, if_pos hsrc]
  simp only [add_ticket_details, hfind]

/-- Witness for C5: the spec scenario `"Fix bug\n"` with source
`"message"`, and the empty-content edge case. -/
theorem editor_appends_when_no_comment_block_witness :
    add_ticket_to_commit "BAR-9".toList (some "message".toList) "Fix bug\n".toList =
      some "Fix bug\n\nTicket: BAR-9\n".toList ∧
    add_ticket_to_commit "FOO-1".toList none [] = some "\nTicket: FOO-1\n".toList :=
  ⟨(editor_appends_when_no_comment_block "Fix bug\n".toList "BAR-9".toList
      (some "message".toList) (by decide) (Or.inr (Or.inl rfl)) (by decide)).trans
      (by decide),
   (editor_appends_when_no_comment_block [] "FOO-1".toList none
      (by decide) (Or.inl rfl) (by decide)).trans (by decide)⟩

/-- C6 evidence: with two hook arguments (three argv entries) the script
sets the commit source to `None` although `argv[2]` exists, because it
reads `argv[2]` only when `len(argv) == 4`; consequently a merge commit
(source tag `"merge"`, no commit id) is treated as an absent source and
gets the ticket inserted, although `"merge"` is not in
`SUPPORTED_SOURCES`. -/
theorem commit_source_dropped_without_third_arg :
    parseCommitSource ["hook".toList, "file".toList, "message".toList] = none ∧
    (["hook".toList, "file".toList, "message".toList])[2]? =
      some "message".toList ∧
    main ["hook".toList, "file".toList, "merge".toList] "msg\n".toList
      (.exited 0 "FOO-1234/x\n".toList "".toList) =
      .finished ⟨"msg\n\nTicket: FOO-1234\n".toList, true, [], 0⟩ :=
  ⟨by decide, by decide, by decide⟩

/-- Counterexample for C7 as stated: invoked with an argv holding only
the program name, the script raises `IndexError` on `argv[1]` and the
interpreter exits with status 1, not 0. -/
theorem exit_nonzero_on_empty_argv :
    main ["hook".toList] "Fix bug\n".toList
      (.exited 0 "FOO-1/x\n".toList "".toList) = RunResult.crashed ∧
    exitCodeOf (main ["hook".toList] "Fix bug\n".toList
      (.exited 0 "FOO-1/x\n".toList "".toList)) = 1 :=
  ⟨by decide, by decide⟩

/-- C7 (amended): whenever the commit-message-file argument is present
(at least two argv entries, as in every git hook invocation), the script
completes and returns exit code 0, for every file content and every
branch-lookup outcome. -/
theorem exit_zero_when_msgfile_arg_present (argv : List (List Char))
    (content : List Char) (o : BranchOutcome) (h2 : 2 ≤ argv.length) :
    ∃ r : MainResult, main argv content o = .finished r ∧ r.exitCode = 0 := by
  rcases argv with _ | ⟨a, tl⟩
  · exact absurd h2 (by simp)
  rcases tl with _ | ⟨b, rest⟩
  · exact absurd h2 (by simp)
  by_cases hsup : parseCommitSource (a :: b :: rest) ∈ SUPPORTED_SOURCES
  · cases hbr : (get_branch o).branch with
    | none =>
      exact ⟨⟨content, false, (get_branch o).errLog, 0⟩,
        by simp [main, hsup, hbr], rfl⟩
    | some branch =>
      cases ht : get_ticket_from_branch branch TICKET_LABELS with
      | none =>
        exact ⟨⟨content, false, (get_branch o).errLog, 0⟩,
          by simp [main, hsup, hbr, ht], rfl⟩
      | some ticket =>
        cases he : add_ticket_to_commit ticket (parseCommitSource (a :: b :: rest))
            content with
        | none =>
          exact ⟨⟨content, false, (get_branch o).errLog, 0⟩,
            by simp [main, hsup, hbr, ht, he], rfl⟩
        | some out =>
          exact ⟨⟨out, true, (get_branch o).errLog, 0⟩,
            by simp [main, hsup, hbr, ht, he], rfl⟩
  · exact ⟨⟨content, false, [], 0⟩, by simp [main, hsup], rfl⟩

/-- Witness for C7 (amended) at a concrete invocation. -/
theorem exit_zero_when_msgfile_arg_present_witness :
    ∃ r : MainResult,
      main ["hook".toList, "file".toList] "Fix bug\n".toList
        (.exited 0 "FOO-1/x\n".toList "".toList) = .finished r ∧
      r.exitCode = 0 :=
  exit_zero_when_msgfile_arg_present ["hook".toList, "file".toList]
    "Fix bug\n".toList (.exited 0 "FOO-1/x\n".toList "".toList) (by decide)

/-- C8: when the branch collaborator fails (start failure or non-zero
exit) on an invocation that reaches it, the hook logs one diagnostic
line to stderr, leaves the file content untouched, and exits 0. -/
theorem branch_failure_logged_no_write (argv : List (List Char))
    (content : List Char) (o : BranchOutcome) (h2 : 2 ≤ argv.length)
    (hsup : parseCommitSource argv ∈ SUPPORTED_SOURCES)
    (hfail : branchFailed o) :
    ∃ r : MainResult, main argv content o = .finished r ∧
      r.fileContent = content ∧ r.wrote = false ∧ r.errLog.length = 1 ∧
      r.exitCode = 0 := by
  obtain ⟨m, hm⟩ : ∃ m, get_branch o = ⟨none, [m]⟩ := by
    cases o with
    | startFailure e => exact ⟨startFailMessage e, rfl⟩
    | exited rc stdout stderr =>
      have hrc : rc ≠ 0 := hfail
      exact ⟨exitFailMessage stdout stderr, by simp [get_branch, hrc]⟩
  rcases argv with _ | ⟨a, tl⟩
  · exact absurd h2 (by simp)
  rcases tl with _ | ⟨b, rest⟩
  · exact absurd h2 (by simp)
  refine ⟨⟨content, false, [m], 0⟩, ?_, rfl, rfl, rfl, rfl⟩
  simp only [main, List.getElem?_cons_succ, List.getElem?_cons_zero]
  rw [if_pos hsup, hm]

/-- Witness for C8: a non-zero collaborator exit on a two-argument
invocation. -/
theorem branch_failure_logged_no_write_witness :
    ∃ r : MainResult,
      main ["hook".toList, "file".toList] "Fix bug\n".toList
        (.exited 1 "".toList "boom".toList) = .finished r ∧
      r.fileContent = "Fix bug\n".toList ∧ r.wrote = false ∧
      r.errLog.length = 1 ∧ r.exitCode = 0 :=
  branch_failure_logged_no_write ["hook".toList, "file".toList]
    "Fix bug\n".toList (.exited 1 "".toList "boom".toList)
    (by decide) (by decide) (by decide)

/-- C9: on every completed invocation the file is rewritten (with the
editor's output) exactly when the pipeline produced a changed result;
in every no-change situation — unsupported source, branch failure, no
ticket, or the editor returning no change — the content stays exactly as
it was. -/
theorem file_written_iff_editor_change (argv : List (List Char))
    (content : List Char) (o : BranchOutcome) (h2 : 2 ≤ argv.length) :
    ∃ r : MainResult, main argv content o = .finished r ∧ r.exitCode = 0 ∧
      ((r.wrote = true ∧
          parseCommitSource argv ∈ SUPPORTED_SOURCES ∧
          ∃ b t, (get_branch o).branch = some b ∧
            get_ticket_from_branch b TICKET_LABELS = some t ∧
            add_ticket_to_commit t (parseCommitSource argv) content =
              some r.fileContent) ∨
        (r.wrote = false ∧ r.fileContent = content ∧
          (∀ b t, (get_branch o).branch = some b →
            get_ticket_from_branch b TICKET_LABELS = some t →
            parseCommitSource argv ∈ SUPPORTED_SOURCES →
            add_ticket_to_commit t (parseCommitSource argv) content = none))) := by
  rcases argv with _ | ⟨a, tl⟩
  · exact absurd h2 (by simp)
  rcases tl with _ | ⟨b, rest⟩
  · exact absurd h2 (by simp)
  by_cases hsup : parseCommitSource (a :: b :: rest) ∈ SUPPORTED_SOURCES
  · cases hbr : (get_branch o).branch with
    | none =>
      refine ⟨⟨content, false, (get_branch o).errLog, 0⟩,
        by simp [main, hsup, hbr], rfl, Or.inr ⟨rfl, rfl, ?_⟩⟩
      exact fun b' t hb' => absurd hb' (by simp)
    | some branch =>
      cases ht : get_ticket_from_branch branch TICKET_LABELS with
      | none =>
        refine ⟨⟨content, false, (get_branch o).errLog, 0⟩,
          by simp [main, hsup, hbr, ht], rfl, Or.inr ⟨rfl, rfl, ?_⟩⟩
        intro b' t hb' ht' _
        obtain rfl := Option.some.inj hb'
        rw [ht] at ht'
        exact absurd ht' (by simp)
      | some ticket =>
        cases he : add_ticket_to_commit ticket (parseCommitSource (a :: b :: rest))
            content with
        | none =>
          refine ⟨⟨content, false, (get_branch o).errLog, 0⟩,
            by simp [main, hsup, hbr, ht, he], rfl, Or.inr ⟨rfl, rfl, ?_⟩⟩
          intro b' t hb' ht' _
          obtain rfl := Option.some.inj hb'
          rw [ht] at ht'
          obtain rfl := Option.some.inj ht'
          exact he
        | some out =>
          exact ⟨⟨out, true, (get_branch o).errLog, 0⟩,
            by simp [main, hsup, hbr, ht, he], rfl,
            Or.inl ⟨rfl, hsup, branch, ticket, rfl, ht, he⟩⟩
  · refine ⟨⟨content, false, [], 0⟩, by simp [main, hsup], rfl,
      Or.inr ⟨rfl, rfl, ?_⟩⟩
    exact fun b' t _ _ hs => absurd hs hsup

/-- Witness for C9: a successful resolution that rewrites the file. -/
theorem file_written_iff_editor_change_witness :
    ∃ r : MainResult,
      main ["hook".toList, "file".toList] "msg\n".toList
        (.exited 0 "FOO-7/x\n".toList "".toList) = .finished r ∧
      r.exitCode = 0 ∧
      ((r.wrote = true ∧
          parseCommitSource ["hook".toList, "file".toList] ∈ SUPPORTED_SOURCES ∧
          ∃ b t, (get_branch (.exited 0 "FOO-7/x\n".toList "".toList)).branch =
              some b ∧
            get_ticket_from_branch b TICKET_LABELS = some t ∧
            add_ticket_to_commit t (parseCommitSource ["hook".toList, "file".toList])
              "msg\n".toList = some r.fileContent) ∨
        (r.wrote = false ∧ r.fileContent = "msg\n".toList ∧
          (∀ b t, (get_branch (.exited 0 "FOO-7/x\n".toList "".toList)).branch =
              some b →
            get_ticket_from_branch b TICKET_LABELS = some t →
            parseCommitSource ["hook".toList, "file".toList] ∈ SUPPORTED_SOURCES →
            add_ticket_to_commit t (parseCommitSource ["hook".toList, "file".toList])
              "msg\n".toList = none))) :=
  file_written_iff_editor_change ["hook".toList, "file".toList] "msg\n".toList
    (.exited 0 "FOO-7/x\n".toList "".toList) (by decide)

end GitHooks
